import Mathlib

/-!
# Verification of the resumable download core (src/gui/src/core/download.rs)

Shallow embedding of `download_file` and its helpers. The network, the
pause/cancel flags and the clock are modelled as an explicit trace of
events consumed by the loop:

* each read of an atomic flag is a boolean supplied by the trace (the
  flags are externally mutable at any time, so successive reads are
  independent values);
* each outer-loop iteration receives the outcome of `request.send()`:
  a connect error, or a response with an optional `content_length`, an
  HTTP status code and a list of chunk events;
* each chunk event carries the flag readings taken before processing it,
  and either a read error or a chunk (its length, whether the disk write
  succeeds, and whether the 100 ms report timer fired, with the elapsed
  time as an exact rational).

`f64` speed arithmetic is modelled over `ℚ`; machine `u64` counters are
`Nat` (the byte counters of a download never approach 2^64).
-/

namespace Download

/-- `DownloadState` from the source: the progress snapshot handed to the
progress callback. -/
structure DownloadState where
  downloaded : Nat
  total : Nat
  speed : ℚ
  deriving Repr, DecidableEq

/-- A successfully received chunk: its byte length, whether
`file.write_all` succeeds on it, and whether at least 100 ms have elapsed
since `last_update` (`some e` gives the elapsed seconds). -/
structure ChunkData where
  len : Nat
  writeOk : Bool
  tick : Option ℚ
  deriving Repr, DecidableEq

instance {ε α : Type} [DecidableEq ε] [DecidableEq α] : DecidableEq (Except ε α) := fun a b =>
  match a, b with
  | .ok x, .ok y =>
    if h : x = y then .isTrue (by rw [h]) else .isFalse (fun hc => h (by injection hc))
  | .error x, .error y =>
    if h : x = y then .isTrue (by rw [h]) else .isFalse (fun hc => h (by injection hc))
  | .ok _, .error _ => .isFalse (fun hc => Except.noConfusion hc)
  | .error _, .ok _ => .isFalse (fun hc => Except.noConfusion hc)

/-- One iteration of the inner `while let Some(chunk_result)` loop: the
cancel and pause flag readings taken at its head, then the chunk result
(`.error ()` is a mid-stream read error). -/
structure ChunkEv where
  cancel : Bool
  pause : Bool
  result : Except Unit ChunkData
  deriving Repr, DecidableEq

/-- A response delivered by `request.send()`: optional `content_length`,
HTTP status code, and the stream of chunk events. -/
structure Response where
  contentLength : Option Nat
  status : Nat
  chunks : List ChunkEv
  deriving Repr, DecidableEq

/-- The environment of one outer-loop iteration: the two flag readings at
the top of the loop, the outcome of `request.send()`, the fresh pause
reading at the post-stream completion check (line 207), and whether
`remove_file` would succeed if cancellation triggers cleanup. -/
structure IterEv where
  cancelTop : Bool
  pauseTop : Bool
  resp : Except Unit Response
  pauseAfter : Bool
  removeOk : Bool
  deriving Repr, DecidableEq

/-- The loop's mutable state: `downloaded`, `total_size`,
`last_downloaded` and `speed_samples` from the source, plus the
destination file (byte count and existence), a count of `remove_file`
attempts, and the list of snapshots delivered to the callback so far. -/
structure LoopState where
  downloaded : Nat
  total_size : Nat
  last_downloaded : Nat
  speed_samples : List ℚ
  fileLen : Nat
  fileExists : Bool
  deleteAttempts : Nat
  reports : List DownloadState
  deriving Repr, DecidableEq

/-- `max_samples` from the source. -/
def max_samples : Nat := 20

/-- `speed_samples.push(s)` followed by `remove(0)` when the window
overflows `max_samples`. -/
def pushSample (samples : List ℚ) (s : ℚ) : List ℚ :=
  let l := samples ++ [s]
  if l.length > max_samples then l.tail else l

/-- `avg_speed`: mean of the retained samples, falling back to the
instantaneous value on an empty window. -/
def avgSpeed (samples : List ℚ) (instant : ℚ) : ℚ :=
  if samples.isEmpty then instant else samples.sum / samples.length

/-- The progress-report block guarded by the 100 ms timer: compute the
instantaneous speed, push it into the window, emit a snapshot with the
smoothed speed, and reset the sample anchor. -/
def tickUpdate (st : LoopState) (elapsed : ℚ) : LoopState :=
  let instant : ℚ := ((st.downloaded - st.last_downloaded : Nat) : ℚ) / elapsed
  let samples := pushSample st.speed_samples instant
  { st with
    speed_samples := samples
    reports := st.reports ++ [⟨st.downloaded, st.total_size, avgSpeed samples instant⟩]
    last_downloaded := st.downloaded }

/-- Append a successfully written chunk: advance the file and
`downloaded`, then run the report block if the timer fired. -/
def writeChunk (st : LoopState) (d : ChunkData) : LoopState :=
  let st1 := { st with fileLen := st.fileLen + d.len, downloaded := st.downloaded + d.len }
  match d.tick with
  | none => st1
  | some e => tickUpdate st1 e

/-- Cancellation cleanup: `drop(file)` then a best-effort
`remove_file` whose failure is swallowed. -/
def cancelCleanup (st : LoopState) (removeOk : Bool) : LoopState :=
  { st with
    fileExists := if removeOk then false else st.fileExists
    deleteAttempts := st.deleteAttempts + 1 }

/-- Result of the inner chunk loop: cancellation bailed out, a disk write
failed (the `?` on `write_all`), or the loop ended with the
`error_occurred` flag as recorded. -/
inductive InnerRes where
  | cancelled : LoopState → InnerRes
  | ioError : LoopState → InnerRes
  | ended : Bool → LoopState → InnerRes
  deriving Repr, DecidableEq

/-- The inner `while let Some(chunk_result) = stream.next()` loop. -/
def processChunks (removeOk : Bool) : LoopState → List ChunkEv → InnerRes
  | st, [] => .ended false st
  | st, c :: cs =>
    if c.cancel then .cancelled (cancelCleanup st removeOk)
    else if c.pause then .ended false st
    else
      match c.result with
      | .error _ => .ended true st
      | .ok d => if d.writeOk then processChunks removeOk (writeChunk st d) cs else .ioError st

/-- Lines 130–135: adopt `downloaded + content_length` as the total when
the total is still unknown, before the status is examined. -/
def updTotal (st : LoopState) (r : Response) : LoopState :=
  if st.total_size = 0 then
    match r.contentLength with
    | some len => { st with total_size := st.downloaded + len }
    | none => st
  else st

/-- `StatusCode::is_success`: a 2xx status. -/
def isSuccess (status : Nat) : Bool := 200 ≤ status && status < 300

/-- `StatusCode::RANGE_NOT_SATISFIABLE`. -/
def rangeNotSatisfiable : Nat := 416

/-- Why control returned to the top of the outer loop, determining the
sleep performed on the way: 100 ms for the pause spin, 2 s after a
connect error or a non-success status, none after the chunk stream ended
early. -/
inductive RetryKind where
  | pausedSleep
  | connectFail
  | badStatus
  | streamEnd
  deriving Repr, DecidableEq

/-- Milliseconds slept before the next iteration on each retry path. -/
def retryDelayMs : RetryKind → Nat
  | .pausedSleep => 100
  | .connectFail => 2000
  | .badStatus => 2000
  | .streamEnd => 0

/-- Outcome of one outer-loop iteration: `done` is a `break` (the success
path), `cancelled` and `ioError` are the two early returns, `again`
continues the loop. -/
inductive IterRes where
  | done : LoopState → IterRes
  | cancelled : LoopState → IterRes
  | ioError : LoopState → IterRes
  | again : RetryKind → LoopState → IterRes
  deriving Repr, DecidableEq

/-- One iteration of the outer `loop` of `download_file` (lines 98–223). -/
def iterOnce (st : LoopState) (ev : IterEv) : IterRes :=
  if ev.cancelTop then .cancelled (cancelCleanup st ev.removeOk)
  else if ev.pauseTop then .again .pausedSleep st
  else if 0 < st.total_size ∧ st.total_size ≤ st.downloaded then .done st
  else
    match ev.resp with
    | .error _ => .again .connectFail st
    | .ok r =>
      let st := updTotal st r
      if isSuccess r.status then
        match processChunks ev.removeOk st r.chunks with
        | .cancelled st' => .cancelled st'
        | .ioError st' => .ioError st'
        | .ended err st' =>
          if err = false ∧ ev.pauseAfter = false then
            if 0 < st'.total_size then
              if st'.total_size ≤ st'.downloaded then .done st' else .again .streamEnd st'
            else .done st'
          else .again .streamEnd st'
      else
        if r.status = rangeNotSatisfiable ∧ 0 < st.total_size ∧ st.total_size ≤ st.downloaded
        then .done st
        else .again .badStatus st

/-- The byte-range header of a GET issued from state `st`:
`some offset` when resuming, `none` for a plain request. -/
def requestRange (st : LoopState) : Option Nat :=
  if 0 < st.downloaded then some st.downloaded else none

/-- Whether an iteration reaches the `request.send()` call, and with
which range header: `none` when cancellation, pause or the completion
check preempts the request. Mirrors the guards of lines 100–123. -/
def issuedRequest (st : LoopState) (ev : IterEv) : Option (Option Nat) :=
  if ev.cancelTop then none
  else if ev.pauseTop then none
  else if 0 < st.total_size ∧ st.total_size ≤ st.downloaded then none
  else some (requestRange st)

/-- How the outer loop terminated: `broke` is the success `break`
(pending the final flush), the others are the early returns. -/
inductive LoopTerm where
  | broke : LoopState → LoopTerm
  | cancelledT : LoopState → LoopTerm
  | ioErrorT : LoopState → LoopTerm
  deriving Repr, DecidableEq

/-- The outer loop, driven by a finite trace of iteration events.
`none` means the trace ran out with the loop still running (the loop
itself has no termination bound). -/
def runLoop : LoopState → List IterEv → Option LoopTerm
  | _, [] => none
  | st, ev :: evs =>
    match iterOnce st ev with
    | .done st' => some (.broke st')
    | .cancelled st' => some (.cancelledT st')
    | .ioError st' => some (.ioErrorT st')
    | .again _ st' => runLoop st' evs

/-- The two failure causes distinguished at the caller: the
`"Download cancelled"` bail-out and a disk I/O error. -/
inductive DlErr where
  | cancelled
  | io
  deriving Repr, DecidableEq

/-- State after creating (truncating) the destination file and running
the HEAD size probe, whose failure leaves the total at 0. -/
def initState (headLen : Option Nat) : LoopState :=
  { downloaded := 0
    total_size := headLen.getD 0
    last_downloaded := 0
    speed_samples := []
    fileLen := 0
    fileExists := true
    deleteAttempts := 0
    reports := [] }

/-- `download_file`: run the loop from the initial state, then on the
success `break` flush the file (`flushOk` is the outcome of
`file.flush()`) and emit the final snapshot with `speed = 0`. -/
def download_file (headLen : Option Nat) (evs : List IterEv) (flushOk : Bool) :
    Option (Except DlErr Unit × LoopState) :=
  match runLoop (initState headLen) evs with
  | none => none
  | some (.cancelledT st) => some (.error .cancelled, st)
  | some (.ioErrorT st) => some (.error .io, st)
  | some (.broke st) =>
    if flushOk then
      some (.ok (), { st with reports := st.reports ++ [⟨st.downloaded, st.total_size, 0⟩] })
    else some (.error .io, st)

/-- A chunk event that takes the normal path: flags clear, chunk
received, write succeeded. -/
def normalOk (c : ChunkEv) : Bool :=
  !c.cancel && !c.pause &&
    (match c.result with
     | .ok d => d.writeOk
     | .error _ => false)

/-- The state transformation of one normally processed chunk event. -/
def applyChunk (st : LoopState) (c : ChunkEv) : LoopState :=
  match c.result with
  | .ok d => writeChunk st d
  | .error _ => st

/-- Bytes carried by a chunk event (a read error carries none). -/
def chunkLen (c : ChunkEv) : Nat :=
  match c.result with
  | .ok d => d.len
  | .error _ => 0

/-- Total bytes carried by a list of chunk events. -/
def chunkBytes (cs : List ChunkEv) : Nat := (cs.map chunkLen).sum

/-- An honest server step: whenever a response is delivered, the bytes
in its stream fit inside the remaining gap to the (possibly just
discovered) total, unless the total is still unknown. -/
def honestIter (st : LoopState) (ev : IterEv) : Bool :=
  match ev.resp with
  | .error _ => true
  | .ok r =>
    let st' := updTotal st r
    st'.total_size = 0 || st'.downloaded + chunkBytes r.chunks ≤ st'.total_size

/-- An honest trace: every delivered response is honest with respect to
the state the loop holds when it receives it. -/
def honest : LoopState → List IterEv → Bool
  | _, [] => true
  | st, ev :: evs =>
    honestIter st ev &&
      match iterOnce st ev with
      | .again _ st' => honest st' evs
      | _ => true

/-- The loop state carried by a terminal loop outcome. -/
def termState : LoopTerm → LoopState
  | .broke s => s
  | .cancelledT s => s
  | .ioErrorT s => s

/-- The loop state carried by an iteration outcome. -/
def iterResState : IterRes → LoopState
  | .done s => s
  | .cancelled s => s
  | .ioError s => s
  | .again _ s => s

/-- Invariant of the loop state: the snapshots delivered so far have
non-decreasing `downloaded`, each respects its own total, the last one
is below the current counter, the sampling anchor trails `downloaded`,
and `downloaded` respects a known total. -/
def StInv (st : LoopState) : Prop :=
  List.Chain' (fun a b => a.downloaded ≤ b.downloaded) st.reports ∧
  (∀ r ∈ st.reports, 0 < r.total → r.downloaded ≤ r.total) ∧
  st.last_downloaded ≤ st.downloaded ∧
  (∀ r, st.reports.getLast? = some r → r.downloaded ≤ st.downloaded) ∧
  (0 < st.total_size → st.downloaded ≤ st.total_size)

/-! ## Basic lemmas about chunk processing -/

lemma normalOk_spec {c : ChunkEv} (h : normalOk c = true) :
    c.cancel = false ∧ c.pause = false ∧ ∃ d, c.result = .ok d ∧ d.writeOk = true := by
  unfold normalOk at h
  cases hres : c.result with
  | ok d =>
    rw [hres] at h
    simp only [Bool.and_eq_true, Bool.not_eq_true'] at h
    exact ⟨h.1.1, h.1.2, d, rfl, h.2⟩
  | error e =>
    rw [hres] at h
    simp at h

@[simp] lemma tickUpdate_downloaded (st : LoopState) (e : ℚ) :
    (tickUpdate st e).downloaded = st.downloaded := rfl

@[simp] lemma tickUpdate_total (st : LoopState) (e : ℚ) :
    (tickUpdate st e).total_size = st.total_size := rfl

@[simp] lemma tickUpdate_fileLen (st : LoopState) (e : ℚ) :
    (tickUpdate st e).fileLen = st.fileLen := rfl

@[simp] lemma tickUpdate_deleteAttempts (st : LoopState) (e : ℚ) :
    (tickUpdate st e).deleteAttempts = st.deleteAttempts := rfl

@[simp] lemma writeChunk_downloaded (st : LoopState) (d : ChunkData) :
    (writeChunk st d).downloaded = st.downloaded + d.len := by
  unfold writeChunk
  cases d.tick <;> simp

@[simp] lemma writeChunk_total (st : LoopState) (d : ChunkData) :
    (writeChunk st d).total_size = st.total_size := by
  unfold writeChunk
  cases d.tick <;> simp

@[simp] lemma writeChunk_fileLen (st : LoopState) (d : ChunkData) :
    (writeChunk st d).fileLen = st.fileLen + d.len := by
  unfold writeChunk
  cases d.tick <;> simp

@[simp] lemma writeChunk_deleteAttempts (st : LoopState) (d : ChunkData) :
    (writeChunk st d).deleteAttempts = st.deleteAttempts := by
  unfold writeChunk
  cases d.tick <;> simp

lemma applyChunk_downloaded (st : LoopState) (c : ChunkEv) :
    (applyChunk st c).downloaded = st.downloaded + chunkLen c := by
  unfold applyChunk chunkLen
  cases c.result <;> simp

lemma applyChunk_total (st : LoopState) (c : ChunkEv) :
    (applyChunk st c).total_size = st.total_size := by
  unfold applyChunk
  cases c.result <;> simp

lemma applyChunk_fileLen (st : LoopState) (c : ChunkEv) :
    (applyChunk st c).fileLen = st.fileLen + chunkLen c := by
  unfold applyChunk chunkLen
  cases c.result <;> simp

lemma applyChunk_deleteAttempts (st : LoopState) (c : ChunkEv) :
    (applyChunk st c).deleteAttempts = st.deleteAttempts := by
  unfold applyChunk
  cases c.result <;> simp

lemma foldl_applyChunk_downloaded (pre : List ChunkEv) :
    ∀ st : LoopState, (List.foldl applyChunk st pre).downloaded = st.downloaded + chunkBytes pre := by
  induction pre with
  | nil => intro st; simp [chunkBytes]
  | cons c pre ih =>
    intro st
    simp only [List.foldl_cons, ih, applyChunk_downloaded, chunkBytes, List.map_cons,
      List.sum_cons]
    omega

lemma foldl_applyChunk_total (pre : List ChunkEv) :
    ∀ st : LoopState, (List.foldl applyChunk st pre).total_size = st.total_size := by
  induction pre with
  | nil => intro st; rfl
  | cons c pre ih =>
    intro st
    simp only [List.foldl_cons, ih, applyChunk_total]

lemma foldl_applyChunk_fileLen (pre : List ChunkEv) :
    ∀ st : LoopState, (List.foldl applyChunk st pre).fileLen = st.fileLen + chunkBytes pre := by
  induction pre with
  | nil => intro st; simp [chunkBytes]
  | cons c pre ih =>
    intro st
    simp only [List.foldl_cons, ih, applyChunk_fileLen, chunkBytes, List.map_cons, List.sum_cons]
    omega

lemma foldl_applyChunk_deleteAttempts (pre : List ChunkEv) :
    ∀ st : LoopState, (List.foldl applyChunk st pre).deleteAttempts = st.deleteAttempts := by
  induction pre with
  | nil => intro st; rfl
  | cons c pre ih =>
    intro st
    simp only [List.foldl_cons, ih, applyChunk_deleteAttempts]

/-- Processing a prefix of normally handled chunks just threads the
state through `applyChunk`. -/
lemma processChunks_append_normal (rOk : Bool) :
    ∀ pre : List ChunkEv, pre.all normalOk = true → ∀ (st : LoopState) (cs : List ChunkEv),
      processChunks rOk st (pre ++ cs) = processChunks rOk (List.foldl applyChunk st pre) cs := by
  intro pre
  induction pre with
  | nil => intro _ st cs; rfl
  | cons c pre ih =>
    intro hpre st cs
    simp only [List.all_cons, Bool.and_eq_true] at hpre
    obtain ⟨hc, hp, d, hres, hw⟩ := normalOk_spec hpre.1
    simp only [List.cons_append, processChunks, hc, hp, hres, hw, List.foldl_cons,
      Bool.false_eq_true, if_false, if_true, List.append_eq]
    rw [ih hpre.2]
    simp [applyChunk, hres]

/-! ## Branch reductions for the outer iteration and the loop -/

lemma updTotal_downloaded (st : LoopState) (r : Response) :
    (updTotal st r).downloaded = st.downloaded := by
  unfold updTotal
  split
  · rcases hcl : r.contentLength with _ | len <;> simp [hcl]
  · rfl

lemma updTotal_fileLen (st : LoopState) (r : Response) :
    (updTotal st r).fileLen = st.fileLen := by
  unfold updTotal
  split
  · rcases hcl : r.contentLength with _ | len <;> simp [hcl]
  · rfl

lemma updTotal_deleteAttempts (st : LoopState) (r : Response) :
    (updTotal st r).deleteAttempts = st.deleteAttempts := by
  unfold updTotal
  split
  · rcases hcl : r.contentLength with _ | len <;> simp [hcl]
  · rfl

lemma updTotal_of_some (st : LoopState) (r : Response) (len : Nat)
    (ht : st.total_size = 0) (hcl : r.contentLength = some len) :
    updTotal st r = { st with total_size := st.downloaded + len } := by
  unfold updTotal
  rw [if_pos ht, hcl]

lemma updTotal_of_none (st : LoopState) (r : Response)
    (ht : st.total_size = 0) (hcl : r.contentLength = none) :
    updTotal st r = st := by
  unfold updTotal
  rw [if_pos ht, hcl]

lemma iterOnce_cancelTop (st : LoopState) (ev : IterEv) (hc : ev.cancelTop = true) :
    iterOnce st ev = .cancelled (cancelCleanup st ev.removeOk) := by
  unfold iterOnce
  rw [hc]
  rfl

lemma iterOnce_connectFail (st : LoopState) (ev : IterEv)
    (hc : ev.cancelTop = false) (hp : ev.pauseTop = false)
    (hnd : ¬(0 < st.total_size ∧ st.total_size ≤ st.downloaded))
    (hr : ev.resp = .error ()) :
    iterOnce st ev = .again .connectFail st := by
  unfold iterOnce
  rw [hc, hp, if_neg hnd, hr]
  rfl

lemma iterOnce_badStatus (st : LoopState) (ev : IterEv) (r : Response)
    (hc : ev.cancelTop = false) (hp : ev.pauseTop = false)
    (hnd : ¬(0 < st.total_size ∧ st.total_size ≤ st.downloaded))
    (hr : ev.resp = .ok r) (hs : isSuccess r.status = false)
    (h416 : ¬(r.status = rangeNotSatisfiable ∧ 0 < (updTotal st r).total_size ∧
      (updTotal st r).total_size ≤ (updTotal st r).downloaded)) :
    iterOnce st ev = .again .badStatus (updTotal st r) := by
  unfold iterOnce
  rw [hc, hp, if_neg hnd, hr]
  simp only [hs, Bool.false_eq_true, if_false, if_neg h416]

lemma iterOnce_streaming (st : LoopState) (ev : IterEv) (r : Response)
    (hc : ev.cancelTop = false) (hp : ev.pauseTop = false)
    (hnd : ¬(0 < st.total_size ∧ st.total_size ≤ st.downloaded))
    (hr : ev.resp = .ok r) (hs : isSuccess r.status = true) :
    iterOnce st ev =
      match processChunks ev.removeOk (updTotal st r) r.chunks with
      | .cancelled st' => .cancelled st'
      | .ioError st' => .ioError st'
      | .ended err st' =>
        if err = false ∧ ev.pauseAfter = false then
          if 0 < st'.total_size then
            if st'.total_size ≤ st'.downloaded then .done st' else .again .streamEnd st'
          else .done st'
        else .again .streamEnd st' := by
  unfold iterOnce
  rw [hc, hp, if_neg hnd, hr]
  simp only [hs, if_true, Bool.false_eq_true, if_false]

lemma processChunks_cons_cancel (rOk : Bool) (st : LoopState) (c : ChunkEv) (cs : List ChunkEv)
    (h : c.cancel = true) :
    processChunks rOk st (c :: cs) = .cancelled (cancelCleanup st rOk) := by
  simp [processChunks, h]

lemma processChunks_cons_pause (rOk : Bool) (st : LoopState) (c : ChunkEv) (cs : List ChunkEv)
    (hc : c.cancel = false) (hp : c.pause = true) :
    processChunks rOk st (c :: cs) = .ended false st := by
  simp [processChunks, hc, hp]

lemma processChunks_cons_readError (rOk : Bool) (st : LoopState) (c : ChunkEv) (cs : List ChunkEv)
    (hc : c.cancel = false) (hp : c.pause = false) (he : c.result = .error ()) :
    processChunks rOk st (c :: cs) = .ended true st := by
  simp [processChunks, hc, hp, he]

lemma processChunks_cons_writeFail (rOk : Bool) (st : LoopState) (c : ChunkEv) (cs : List ChunkEv)
    (d : ChunkData) (hc : c.cancel = false) (hp : c.pause = false) (he : c.result = .ok d)
    (hw : d.writeOk = false) :
    processChunks rOk st (c :: cs) = .ioError st := by
  simp [processChunks, hc, hp, he, hw]

lemma runLoop_cons_done (st st' : LoopState) (ev : IterEv) (evs : List IterEv)
    (h : iterOnce st ev = .done st') :
    runLoop st (ev :: evs) = some (.broke st') := by
  simp [runLoop, h]

lemma runLoop_cons_cancelled (st st' : LoopState) (ev : IterEv) (evs : List IterEv)
    (h : iterOnce st ev = .cancelled st') :
    runLoop st (ev :: evs) = some (.cancelledT st') := by
  simp [runLoop, h]

lemma runLoop_cons_ioError (st st' : LoopState) (ev : IterEv) (evs : List IterEv)
    (h : iterOnce st ev = .ioError st') :
    runLoop st (ev :: evs) = some (.ioErrorT st') := by
  simp [runLoop, h]

lemma runLoop_cons_again (st st' : LoopState) (ev : IterEv) (evs : List IterEv) (k : RetryKind)
    (h : iterOnce st ev = .again k st') :
    runLoop st (ev :: evs) = runLoop st' evs := by
  simp [runLoop, h]

/-- A success `break` of the loop always comes from some iteration
returning `done`. -/
lemma runLoop_broke (evs : List IterEv) :
    ∀ st stF : LoopState, runLoop st evs = some (.broke stF) →
      ∃ (st₀ : LoopState) (ev : IterEv), iterOnce st₀ ev = .done stF := by
  induction evs with
  | nil => intro st stF h; simp [runLoop] at h
  | cons ev evs ih =>
    intro st stF h
    rcases hit : iterOnce st ev with st' | st' | st' | ⟨k, st'⟩
    · rw [runLoop_cons_done st st' ev evs hit] at h
      refine ⟨st, ev, ?_⟩
      rw [hit]
      injection h with h
      injection h with h
      rw [h]
    · rw [runLoop_cons_cancelled st st' ev evs hit] at h
      injection h with h
      exact absurd h (by simp)
    · rw [runLoop_cons_ioError st st' ev evs hit] at h
      injection h with h
      exact absurd h (by simp)
    · rw [runLoop_cons_again st st' ev evs k hit] at h
      exact ih st' stF h

lemma iterOnce_pauseTop (st : LoopState) (ev : IterEv)
    (hc : ev.cancelTop = false) (hp : ev.pauseTop = true) :
    iterOnce st ev = .again .pausedSleep st := by
  unfold iterOnce
  rw [hc, hp]
  rfl

lemma iterOnce_doneTop (st : LoopState) (ev : IterEv)
    (hc : ev.cancelTop = false) (hp : ev.pauseTop = false)
    (hd : 0 < st.total_size ∧ st.total_size ≤ st.downloaded) :
    iterOnce st ev = .done st := by
  unfold iterOnce
  rw [hc, hp, if_pos hd]
  rfl

lemma iterOnce_416done (st : LoopState) (ev : IterEv) (r : Response)
    (hc : ev.cancelTop = false) (hp : ev.pauseTop = false)
    (hnd : ¬(0 < st.total_size ∧ st.total_size ≤ st.downloaded))
    (hr : ev.resp = .ok r) (hs : isSuccess r.status = false)
    (h416 : r.status = rangeNotSatisfiable ∧ 0 < (updTotal st r).total_size ∧
      (updTotal st r).total_size ≤ (updTotal st r).downloaded) :
    iterOnce st ev = .done (updTotal st r) := by
  unfold iterOnce
  rw [hc, hp, if_neg hnd, hr]
  simp only [hs, Bool.false_eq_true, if_false, if_pos h416]

/-- Every `break` of the outer loop happens with the completion condition
satisfied: either the total is known and reached, or the total is unknown
and the chunk stream of this iteration ended without a read error and the
post-stream pause check read false. -/
lemma iterOnce_done_char (st : LoopState) (ev : IterEv) (st' : LoopState)
    (h : iterOnce st ev = .done st') :
    (0 < st'.total_size ∧ st'.total_size ≤ st'.downloaded) ∨
    (st'.total_size = 0 ∧ ev.pauseAfter = false ∧
      ∃ r, ev.resp = .ok r ∧
        processChunks ev.removeOk (updTotal st r) r.chunks = .ended false st') := by
  by_cases hc : ev.cancelTop = true
  · rw [iterOnce_cancelTop st ev hc] at h
    exact absurd h (by simp)
  rw [Bool.not_eq_true] at hc
  by_cases hp : ev.pauseTop = true
  · rw [iterOnce_pauseTop st ev hc hp] at h
    exact absurd h (by simp)
  rw [Bool.not_eq_true] at hp
  by_cases hd : 0 < st.total_size ∧ st.total_size ≤ st.downloaded
  · rw [iterOnce_doneTop st ev hc hp hd] at h
    injection h with h
    rw [← h]
    exact Or.inl hd
  rcases hr : ev.resp with e | r
  · rw [iterOnce_connectFail st ev hc hp hd (by rw [hr])] at h
    exact absurd h (by simp)
  by_cases hs : isSuccess r.status = true
  · rw [iterOnce_streaming st ev r hc hp hd hr hs] at h
    rcases hpc : processChunks ev.removeOk (updTotal st r) r.chunks with st1 | st1 | ⟨err, st1⟩ <;>
      rw [hpc] at h
    · exact absurd h (by simp)
    · exact absurd h (by simp)
    · dsimp only at h
      by_cases hend : err = false ∧ ev.pauseAfter = false
      · rw [if_pos hend] at h
        by_cases ht : 0 < st1.total_size
        · rw [if_pos ht] at h
          by_cases hge : st1.total_size ≤ st1.downloaded
          · rw [if_pos hge] at h
            injection h with h
            rw [← h]
            exact Or.inl ⟨ht, hge⟩
          · rw [if_neg hge] at h
            exact absurd h (by simp)
        · rw [if_neg ht] at h
          injection h with h
          subst h
          refine Or.inr ⟨by omega, hend.2, r, hr ▸ rfl, ?_⟩
          rw [hpc, hend.1]
      · rw [if_neg hend] at h
        exact absurd h (by simp)
  · rw [Bool.not_eq_true] at hs
    by_cases h416 : r.status = rangeNotSatisfiable ∧ 0 < (updTotal st r).total_size ∧
        (updTotal st r).total_size ≤ (updTotal st r).downloaded
    · rw [iterOnce_416done st ev r hc hp hd hr hs h416] at h
      injection h with h
      rw [← h]
      exact Or.inl h416.2
    · rw [iterOnce_badStatus st ev r hc hp hd hr hs h416] at h
      exact absurd h (by simp)

/-! ## Claim theorems -/

lemma issuedRequest_range (st : LoopState) (ev2 : IterEv) (rng : Option Nat)
    (h : issuedRequest st ev2 = some rng) (hdl : 0 < st.downloaded) :
    rng = some st.downloaded := by
  unfold issuedRequest at h
  split at h
  · exact absurd h (by simp)
  · split at h
    · exact absurd h (by simp)
    · split at h
      · exact absurd h (by simp)
      · injection h with h
        rw [← h, requestRange, if_pos hdl]

/-- C1: the transfer loop terminates with success exactly under the
completion condition: every `break` happens with the total known,
non-zero and reached, or with the total unknown (0) and the iteration's
chunk stream ended without a read error (and the post-stream pause check
clear), in which case completion is inferred without a known total;
conversely, both conditions do produce the success `break`. -/
theorem C1_completion_condition :
    (∀ (st : LoopState) (ev : IterEv) (st' : LoopState), iterOnce st ev = .done st' →
      (0 < st'.total_size ∧ st'.total_size ≤ st'.downloaded) ∨
      (st'.total_size = 0 ∧ ev.pauseAfter = false ∧
        ∃ r, ev.resp = .ok r ∧
          processChunks ev.removeOk (updTotal st r) r.chunks = .ended false st')) ∧
    (∀ (evs : List IterEv) (st stF : LoopState), runLoop st evs = some (.broke stF) →
      ∃ (st₀ : LoopState) (ev : IterEv), iterOnce st₀ ev = .done stF) ∧
    (∀ (st : LoopState) (ev : IterEv), ev.cancelTop = false → ev.pauseTop = false →
      0 < st.total_size → st.total_size ≤ st.downloaded → iterOnce st ev = .done st) ∧
    (∀ (st : LoopState) (ev : IterEv) (r : Response), ev.cancelTop = false →
      ev.pauseTop = false → ev.pauseAfter = false → st.total_size = 0 → ev.resp = .ok r →
      r.contentLength = none → isSuccess r.status = true → r.chunks.all normalOk = true →
      ∃ st', iterOnce st ev = .done st' ∧ st'.total_size = 0 ∧
        st'.downloaded = st.downloaded + chunkBytes r.chunks) := by
  refine ⟨iterOnce_done_char, fun evs st stF h => runLoop_broke evs st stF h, ?_, ?_⟩
  · intro st ev hc hp h1 h2
    exact iterOnce_doneTop st ev hc hp ⟨h1, h2⟩
  · intro st ev r hc hp hpa ht hr hcl hs hall
    have hnd : ¬(0 < st.total_size ∧ st.total_size ≤ st.downloaded) := by
      rw [ht]
      simp
    have hupd : updTotal st r = st := updTotal_of_none st r ht hcl
    have hproc : processChunks ev.removeOk st r.chunks =
        .ended false (List.foldl applyChunk st r.chunks) := by
      have hx := processChunks_append_normal ev.removeOk r.chunks hall st []
      rw [List.append_nil] at hx
      rw [hx]
      rfl
    refine ⟨List.foldl applyChunk st r.chunks, ?_, ?_, ?_⟩
    · rw [iterOnce_streaming st ev r hc hp hnd hr hs, hupd, hproc]
      dsimp only
      rw [if_pos ⟨rfl, hpa⟩, if_neg (by rw [foldl_applyChunk_total, ht]; simp)]
    · rw [foldl_applyChunk_total, ht]
    · rw [foldl_applyChunk_downloaded]

/-- Witness for C1 at a concrete completed state. -/
theorem C1_completion_condition_witness :
    iterOnce ⟨5, 5, 0, [], 5, true, 0, []⟩ ⟨false, false, .error (), false, true⟩ =
      .done ⟨5, 5, 0, [], 5, true, 0, []⟩ :=
  C1_completion_condition.2.2.1 ⟨5, 5, 0, [], 5, true, 0, []⟩
    ⟨false, false, .error (), false, true⟩ rfl rfl (by decide) (by decide)

/-- A mid-stream read error after a normally processed prefix ends the
iteration in an immediate retry with the prefix accounted for. -/
lemma iterOnce_readError (st : LoopState) (ev : IterEv) (r : Response)
    (pre : List ChunkEv) (cErr : ChunkEv) (post : List ChunkEv)
    (hc : ev.cancelTop = false) (hp : ev.pauseTop = false)
    (hnd : ¬(0 < st.total_size ∧ st.total_size ≤ st.downloaded))
    (hr : ev.resp = .ok r) (hs : isSuccess r.status = true)
    (hch : r.chunks = pre ++ cErr :: post) (hpre : pre.all normalOk = true)
    (hcc : cErr.cancel = false) (hcp : cErr.pause = false) (hce : cErr.result = .error ()) :
    iterOnce st ev = .again .streamEnd (List.foldl applyChunk (updTotal st r) pre) := by
  have hstream := iterOnce_streaming st ev r hc hp hnd hr hs
  rw [hch, processChunks_append_normal ev.removeOk pre hpre,
      processChunks_cons_readError ev.removeOk _ cErr post hcc hcp hce] at hstream
  rw [hstream]
  dsimp only
  rw [if_neg (by simp)]

/-- C2: a mid-stream read error after `N` bytes have been written is not
escalated (the iteration ends in a retry, and the loop simply continues
on the remaining trace), and every request subsequently issued from the
resulting state carries a byte-range header whose resume offset is the
current value of `downloaded`, i.e. `N`. -/
theorem C2_resume_offset (st : LoopState) (ev : IterEv) (r : Response)
    (pre : List ChunkEv) (cErr : ChunkEv) (post : List ChunkEv)
    (hc : ev.cancelTop = false) (hp : ev.pauseTop = false)
    (hnd : ¬(0 < st.total_size ∧ st.total_size ≤ st.downloaded))
    (hr : ev.resp = .ok r) (hs : isSuccess r.status = true)
    (hch : r.chunks = pre ++ cErr :: post) (hpre : pre.all normalOk = true)
    (hcc : cErr.cancel = false) (hcp : cErr.pause = false) (hce : cErr.result = .error ()) :
    ∃ st', iterOnce st ev = .again .streamEnd st' ∧
      st'.downloaded = st.downloaded + chunkBytes pre ∧
      st'.fileLen = st.fileLen + chunkBytes pre ∧
      (∀ evs, runLoop st (ev :: evs) = runLoop st' evs) ∧
      (∀ (ev2 : IterEv) (rng : Option Nat), issuedRequest st' ev2 = some rng →
        0 < st'.downloaded → rng = some st'.downloaded) := by
  have hiter := iterOnce_readError st ev r pre cErr post hc hp hnd hr hs hch hpre hcc hcp hce
  refine ⟨List.foldl applyChunk (updTotal st r) pre, hiter, ?_, ?_, ?_, ?_⟩
  · rw [foldl_applyChunk_downloaded, updTotal_downloaded]
  · rw [foldl_applyChunk_fileLen, updTotal_fileLen]
  · intro evs
    exact runLoop_cons_again st _ ev evs .streamEnd hiter
  · intro ev2 rng h hdl
    exact issuedRequest_range _ ev2 rng h hdl

/-- Witness for C2: 4 bytes written, then a read error; the retry state
holds 4 bytes and a fresh request resumes at offset 4. -/
theorem C2_resume_offset_witness :
    ∃ st', iterOnce (initState (some 10))
        ⟨false, false,
          .ok ⟨some 10, 200, [⟨false, false, .ok ⟨4, true, none⟩⟩, ⟨false, false, .error ()⟩]⟩,
          false, true⟩ = .again .streamEnd st' ∧
      st'.downloaded = (initState (some 10)).downloaded +
        chunkBytes [⟨false, false, .ok ⟨4, true, none⟩⟩] ∧
      st'.fileLen = (initState (some 10)).fileLen +
        chunkBytes [⟨false, false, .ok ⟨4, true, none⟩⟩] ∧
      (∀ evs, runLoop (initState (some 10))
          (⟨false, false,
            .ok ⟨some 10, 200, [⟨false, false, .ok ⟨4, true, none⟩⟩, ⟨false, false, .error ()⟩]⟩,
            false, true⟩ :: evs) = runLoop st' evs) ∧
      (∀ (ev2 : IterEv) (rng : Option Nat), issuedRequest st' ev2 = some rng →
        0 < st'.downloaded → rng = some st'.downloaded) :=
  C2_resume_offset (initState (some 10)) _ _
    [⟨false, false, .ok ⟨4, true, none⟩⟩] ⟨false, false, .error ()⟩ []
    rfl rfl (by decide) rfl (by decide) rfl (by decide) rfl rfl rfl

/-- C3: at both cancellation points (before issuing a request, before
processing a received chunk) an observed cancel signal makes the loop
attempt deletion of the destination file, swallow a deletion failure
(the outcome does not depend on `removeOk`), and terminate at once with
the distinguished cancellation cause; at the caller this surfaces as the
`cancelled` error, never as success. -/
theorem C3_cancellation_cleanup :
    (∀ (st : LoopState) (ev : IterEv) (rest : List IterEv), ev.cancelTop = true →
      ∃ st', runLoop st (ev :: rest) = some (.cancelledT st') ∧
        st'.deleteAttempts = st.deleteAttempts + 1 ∧
        (ev.removeOk = true → st'.fileExists = false)) ∧
    (∀ (st : LoopState) (ev : IterEv) (rest : List IterEv) (r : Response)
      (pre : List ChunkEv) (c : ChunkEv) (post : List ChunkEv),
      ev.cancelTop = false → ev.pauseTop = false →
      ¬(0 < st.total_size ∧ st.total_size ≤ st.downloaded) →
      ev.resp = .ok r → isSuccess r.status = true →
      r.chunks = pre ++ c :: post → pre.all normalOk = true → c.cancel = true →
      ∃ st', runLoop st (ev :: rest) = some (.cancelledT st') ∧
        st'.deleteAttempts = st.deleteAttempts + 1 ∧
        (ev.removeOk = true → st'.fileExists = false)) ∧
    (∀ (headLen : Option Nat) (evs : List IterEv) (flushOk : Bool) (st : LoopState),
      runLoop (initState headLen) evs = some (.cancelledT st) →
      download_file headLen evs flushOk = some (.error .cancelled, st)) := by
  refine ⟨?_, ?_, ?_⟩
  · intro st ev rest hct
    refine ⟨cancelCleanup st ev.removeOk,
      runLoop_cons_cancelled st _ ev rest (iterOnce_cancelTop st ev hct), ?_, ?_⟩
    · simp [cancelCleanup]
    · intro h
      simp [cancelCleanup, h]
  · intro st ev rest r pre c post hc hp hnd hr hs hch hpre hcanc
    have hstream := iterOnce_streaming st ev r hc hp hnd hr hs
    rw [hch, processChunks_append_normal ev.removeOk pre hpre,
        processChunks_cons_cancel ev.removeOk _ c post hcanc] at hstream
    have hiter : iterOnce st ev = .cancelled
        (cancelCleanup (List.foldl applyChunk (updTotal st r) pre) ev.removeOk) := by
      rw [hstream]
    refine ⟨_, runLoop_cons_cancelled st _ ev rest hiter, ?_, ?_⟩
    · simp [cancelCleanup, foldl_applyChunk_deleteAttempts, updTotal_deleteAttempts]
    · intro h
      simp [cancelCleanup, h]
  · intro headLen evs flushOk st h
    unfold download_file
    rw [h]

/-- Witness for C3: cancel observed before the first request deletes the
file and ends the run with the cancellation cause. -/
theorem C3_cancellation_cleanup_witness :
    ∃ st', runLoop (initState none) [⟨true, false, .error (), false, true⟩] =
        some (.cancelledT st') ∧
      st'.deleteAttempts = (initState none).deleteAttempts + 1 ∧
      ((⟨true, false, .error (), false, true⟩ : IterEv).removeOk = true →
        st'.fileExists = false) :=
  C3_cancellation_cleanup.1 (initState none) ⟨true, false, .error (), false, true⟩ [] rfl

/-- Counterexample to C4 as stated: a mid-stream read error is retried
with no delay at all — only connect failures and non-success statuses
get the fixed 2-second sleep. -/
theorem C4_counterexample :
    iterOnce (initState (some 10))
        ⟨false, false, .ok ⟨none, 200, [⟨false, false, .error ()⟩]⟩, false, true⟩ =
      .again .streamEnd (initState (some 10)) ∧
    retryDelayMs .streamEnd = 0 ∧ retryDelayMs .connectFail = 2000 := by
  refine ⟨by decide, rfl, rfl⟩

/-- C4 (amended): a connect/send error and a non-success status (other
than range-not-satisfiable when already complete) are retried after the
fixed 2-second delay; a mid-stream read error is retried immediately
with no delay; none of the three is surfaced to the caller, and with no
cancellation the retrying never ends on its own — an all-failure trace
leaves the loop still running however long it is. -/
theorem C4_retry_policy :
    (∀ (st : LoopState) (ev : IterEv), ev.cancelTop = false → ev.pauseTop = false →
      ¬(0 < st.total_size ∧ st.total_size ≤ st.downloaded) → ev.resp = .error () →
      iterOnce st ev = .again .connectFail st ∧ retryDelayMs .connectFail = 2000) ∧
    (∀ (st : LoopState) (ev : IterEv) (r : Response), ev.cancelTop = false →
      ev.pauseTop = false → ¬(0 < st.total_size ∧ st.total_size ≤ st.downloaded) →
      ev.resp = .ok r → isSuccess r.status = false →
      ¬(r.status = rangeNotSatisfiable ∧ 0 < (updTotal st r).total_size ∧
        (updTotal st r).total_size ≤ (updTotal st r).downloaded) →
      iterOnce st ev = .again .badStatus (updTotal st r) ∧ retryDelayMs .badStatus = 2000) ∧
    (∀ (st : LoopState) (ev : IterEv) (r : Response) (pre : List ChunkEv) (cErr : ChunkEv)
      (post : List ChunkEv), ev.cancelTop = false → ev.pauseTop = false →
      ¬(0 < st.total_size ∧ st.total_size ≤ st.downloaded) →
      ev.resp = .ok r → isSuccess r.status = true →
      r.chunks = pre ++ cErr :: post → pre.all normalOk = true →
      cErr.cancel = false → cErr.pause = false → cErr.result = .error () →
      ∃ st', iterOnce st ev = .again .streamEnd st' ∧ retryDelayMs .streamEnd = 0) ∧
    (∀ (st : LoopState) (evs : List IterEv),
      ¬(0 < st.total_size ∧ st.total_size ≤ st.downloaded) →
      (∀ ev ∈ evs, ev.cancelTop = false ∧ ev.pauseTop = false ∧ ev.resp = .error ()) →
      runLoop st evs = none) := by
  refine ⟨?_, ?_, ?_, ?_⟩
  · intro st ev hc hp hnd hr
    exact ⟨iterOnce_connectFail st ev hc hp hnd hr, rfl⟩
  · intro st ev r hc hp hnd hr hs h416
    exact ⟨iterOnce_badStatus st ev r hc hp hnd hr hs h416, rfl⟩
  · intro st ev r pre cErr post hc hp hnd hr hs hch hpre hcc hcp hce
    exact ⟨_, iterOnce_readError st ev r pre cErr post hc hp hnd hr hs hch hpre hcc hcp hce, rfl⟩
  · intro st evs hnd hall
    induction evs with
    | nil => rfl
    | cons ev evs ih =>
      have hev := hall ev (by simp)
      rw [runLoop_cons_again st st ev evs .connectFail
        (iterOnce_connectFail st ev hev.1 hev.2.1 hnd hev.2.2)]
      exact ih (fun e he => hall e (by simp [he]))

/-- Witness for C4 (amended) at a concrete connect failure. -/
theorem C4_retry_policy_witness :
    iterOnce (initState none) ⟨false, false, .error (), false, true⟩ =
      .again .connectFail (initState none) ∧ retryDelayMs .connectFail = 2000 :=
  C4_retry_policy.1 (initState none) ⟨false, false, .error (), false, true⟩ rfl rfl
    (by decide) rfl

/-- C7: an I/O error while writing a received chunk aborts the whole
transfer at once — whatever the remaining trace holds, the loop returns
the I/O failure, and at the caller it surfaces as the `io` error, never
re-entering the retry loop. -/
theorem C7_write_error_fatal :
    (∀ (st : LoopState) (ev : IterEv) (rest : List IterEv) (r : Response)
      (pre : List ChunkEv) (c : ChunkEv) (post : List ChunkEv) (d : ChunkData),
      ev.cancelTop = false → ev.pauseTop = false →
      ¬(0 < st.total_size ∧ st.total_size ≤ st.downloaded) →
      ev.resp = .ok r → isSuccess r.status = true →
      r.chunks = pre ++ c :: post → pre.all normalOk = true →
      c.cancel = false → c.pause = false → c.result = .ok d → d.writeOk = false →
      ∃ st', runLoop st (ev :: rest) = some (.ioErrorT st')) ∧
    (∀ (headLen : Option Nat) (evs : List IterEv) (flushOk : Bool) (st₁ : LoopState),
      runLoop (initState headLen) evs = some (.ioErrorT st₁) →
      download_file headLen evs flushOk = some (.error .io, st₁)) := by
  constructor
  · intro st ev rest r pre c post d hc hp hnd hr hs hch hpre hcc hcp hcr hw
    have hstream := iterOnce_streaming st ev r hc hp hnd hr hs
    rw [hch, processChunks_append_normal ev.removeOk pre hpre,
        processChunks_cons_writeFail ev.removeOk _ c post d hcc hcp hcr hw] at hstream
    exact ⟨_, runLoop_cons_ioError st _ ev rest hstream⟩
  · intro headLen evs flushOk st₁ h
    unfold download_file
    rw [h]

/-- Witness for C7: the very first chunk's write fails and the run ends
in the I/O error immediately. -/
theorem C7_write_error_fatal_witness :
    ∃ st', runLoop (initState none)
        [⟨false, false, .ok ⟨none, 200, [⟨false, false, .ok ⟨4, false, none⟩⟩]⟩, false, true⟩] =
      some (.ioErrorT st') :=
  C7_write_error_fatal.1 (initState none)
    ⟨false, false, .ok ⟨none, 200, [⟨false, false, .ok ⟨4, false, none⟩⟩]⟩, false, true⟩ []
    ⟨none, 200, [⟨false, false, .ok ⟨4, false, none⟩⟩]⟩ [] ⟨false, false, .ok ⟨4, false, none⟩⟩
    [] ⟨4, false, none⟩ rfl rfl (by decide) rfl (by decide) rfl rfl rfl rfl rfl rfl

/-- C9: with the total unknown, a GET response carrying a content length
fixes `total_size := downloaded + length` before its HTTP status is even
examined — a non-success response (an error page with a body, say) still
sets the total that all later completion checks and reports use. -/
theorem C9_total_before_status (st : LoopState) (ev : IterEv) (r : Response) (len : Nat)
    (hc : ev.cancelTop = false) (hp : ev.pauseTop = false)
    (hnd : ¬(0 < st.total_size ∧ st.total_size ≤ st.downloaded))
    (ht : st.total_size = 0) (hr : ev.resp = .ok r) (hcl : r.contentLength = some len)
    (hlen : 0 < len) (hs : isSuccess r.status = false) :
    iterOnce st ev = .again .badStatus { st with total_size := st.downloaded + len } ∧
    (updTotal st r).total_size = st.downloaded + len := by
  have hupd : updTotal st r = { st with total_size := st.downloaded + len } :=
    updTotal_of_some st r len ht hcl
  have h416 : ¬(r.status = rangeNotSatisfiable ∧ 0 < (updTotal st r).total_size ∧
      (updTotal st r).total_size ≤ (updTotal st r).downloaded) := by
    rw [hupd]
    rintro ⟨-, -, hle⟩
    simp at hle
    omega
  refine ⟨?_, by rw [hupd]⟩
  rw [iterOnce_badStatus st ev r hc hp hnd hr hs h416, hupd]

/-- Witness for C9: a 404 carrying `Content-Length: 55` fixes the total
at 55. -/
theorem C9_total_before_status_witness :
    iterOnce (initState none) ⟨false, false, .ok ⟨some 55, 404, []⟩, false, true⟩ =
      .again .badStatus
        { initState none with total_size := (initState none).downloaded + 55 } ∧
    (updTotal (initState none) ⟨some 55, 404, []⟩).total_size =
      (initState none).downloaded + 55 :=
  C9_total_before_status (initState none) ⟨false, false, .ok ⟨some 55, 404, []⟩, false, true⟩
    ⟨some 55, 404, []⟩ 55 rfl rfl (by decide) rfl rfl rfl (by decide) rfl

/-- C10: exiting the inner chunk loop on an observed pause never yields
a spurious completion while the flag is still set at the re-check: with
the total unknown, the iteration ends in a retry (never a `done`), and
any request issued afterwards resumes from the current `downloaded`
offset. -/
theorem C10_pause_no_spurious_completion (st : LoopState) (ev : IterEv) (r : Response)
    (pre : List ChunkEv) (c : ChunkEv) (post : List ChunkEv)
    (hc : ev.cancelTop = false) (hp : ev.pauseTop = false)
    (hnd : ¬(0 < st.total_size ∧ st.total_size ≤ st.downloaded))
    (hr : ev.resp = .ok r) (hs : isSuccess r.status = true)
    (ht : st.total_size = 0) (hcl : r.contentLength = none)
    (hch : r.chunks = pre ++ c :: post) (hpre : pre.all normalOk = true)
    (hcc : c.cancel = false) (hcp : c.pause = true)
    (hpa : ev.pauseAfter = true) :
    ∃ st', iterOnce st ev = .again .streamEnd st' ∧
      st'.downloaded = st.downloaded + chunkBytes pre ∧
      (∀ st'', iterOnce st ev ≠ .done st'') ∧
      (∀ (ev2 : IterEv) (rng : Option Nat), issuedRequest st' ev2 = some rng →
        0 < st'.downloaded → rng = some st'.downloaded) := by
  have hstream := iterOnce_streaming st ev r hc hp hnd hr hs
  rw [updTotal_of_none st r ht hcl, hch, processChunks_append_normal ev.removeOk pre hpre,
      processChunks_cons_pause ev.removeOk _ c post hcc hcp] at hstream
  have hiter : iterOnce st ev = .again .streamEnd (List.foldl applyChunk st pre) := by
    rw [hstream]
    dsimp only
    rw [if_neg (by simp [hpa])]
  refine ⟨List.foldl applyChunk st pre, hiter, ?_, ?_, ?_⟩
  · rw [foldl_applyChunk_downloaded]
  · intro st'' hdone
    rw [hiter] at hdone
    exact absurd hdone (by simp)
  · intro ev2 rng h hdl
    exact issuedRequest_range _ ev2 rng h hdl

/-- Witness for C10: 3 bytes arrive, then a pause is observed; the
iteration retries from offset 3 instead of completing. -/
theorem C10_pause_no_spurious_completion_witness :
    ∃ st', iterOnce (initState none)
        ⟨false, false,
          .ok ⟨none, 200, [⟨false, false, .ok ⟨3, true, none⟩⟩, ⟨false, true, .error ()⟩]⟩,
          true, true⟩ = .again .streamEnd st' ∧
      st'.downloaded = (initState none).downloaded +
        chunkBytes [⟨false, false, .ok ⟨3, true, none⟩⟩] ∧
      (∀ st'', iterOnce (initState none)
        ⟨false, false,
          .ok ⟨none, 200, [⟨false, false, .ok ⟨3, true, none⟩⟩, ⟨false, true, .error ()⟩]⟩,
          true, true⟩ ≠ .done st'') ∧
      (∀ (ev2 : IterEv) (rng : Option Nat), issuedRequest st' ev2 = some rng →
        0 < st'.downloaded → rng = some st'.downloaded) :=
  C10_pause_no_spurious_completion (initState none)
    ⟨false, false,
      .ok ⟨none, 200, [⟨false, false, .ok ⟨3, true, none⟩⟩, ⟨false, true, .error ()⟩]⟩,
      true, true⟩
    ⟨none, 200, [⟨false, false, .ok ⟨3, true, none⟩⟩, ⟨false, true, .error ()⟩]⟩
    [⟨false, false, .ok ⟨3, true, none⟩⟩] ⟨false, true, .error ()⟩ []
    rfl rfl (by decide) rfl (by decide) rfl rfl rfl rfl rfl rfl rfl

/-- C8: every successful termination appends exactly one final snapshot
after the loop exits — the snapshot stream is the loop's own reports
plus a single trailing one — and that snapshot's speed is 0, not the
smoothed value. -/
theorem C8_final_snapshot (headLen : Option Nat) (evs : List IterEv) (flushOk : Bool)
    (st : LoopState)
    (h : download_file headLen evs flushOk = some (.ok (), st)) :
    flushOk = true ∧
    ∃ st₀, runLoop (initState headLen) evs = some (.broke st₀) ∧
      st.reports = st₀.reports ++ [⟨st₀.downloaded, st₀.total_size, 0⟩] ∧
      st.reports.getLast? = some ⟨st.downloaded, st.total_size, 0⟩ := by
  unfold download_file at h
  rcases hrl : runLoop (initState headLen) evs with _ | t
  · rw [hrl] at h
    exact absurd h (by simp)
  · rcases t with st₀ | st₀ | st₀ <;> rw [hrl] at h <;> dsimp only at h
    · by_cases hf : flushOk = true
      · rw [if_pos hf] at h
        injection h with h
        have hst : { st₀ with
            reports := st₀.reports ++ [⟨st₀.downloaded, st₀.total_size, 0⟩] } = st :=
          congrArg Prod.snd h
        refine ⟨hf, st₀, rfl, ?_, ?_⟩
        · rw [← hst]
        · rw [← hst]
          simp [List.getLast?_concat]
      · rw [if_neg hf] at h
        injection h with h
        exact absurd (congrArg Prod.fst h) (by simp)
    · injection h with h
      exact absurd (congrArg Prod.fst h) (by simp)
    · injection h with h
      exact absurd (congrArg Prod.fst h) (by simp)

/-- Witness for C8: an unknown-size transfer of 7 bytes succeeds and its
report stream ends with the single trailing zero-speed snapshot. -/
theorem C8_final_snapshot_witness :
    (true : Bool) = true ∧
    ∃ st₀, runLoop (initState none)
        [⟨false, false, .ok ⟨none, 200, [⟨false, false, .ok ⟨7, true, none⟩⟩]⟩, false, true⟩] =
        some (.broke st₀) ∧
      (⟨7, 0, 0, [], 7, true, 0, [⟨7, 0, 0⟩]⟩ : LoopState).reports =
        st₀.reports ++ [⟨st₀.downloaded, st₀.total_size, 0⟩] ∧
      (⟨7, 0, 0, [], 7, true, 0, [⟨7, 0, 0⟩]⟩ : LoopState).reports.getLast? =
        some ⟨(⟨7, 0, 0, [], 7, true, 0, [⟨7, 0, 0⟩]⟩ : LoopState).downloaded,
          (⟨7, 0, 0, [], 7, true, 0, [⟨7, 0, 0⟩]⟩ : LoopState).total_size, 0⟩ :=
  C8_final_snapshot none
    [⟨false, false, .ok ⟨none, 200, [⟨false, false, .ok ⟨7, true, none⟩⟩]⟩, false, true⟩]
    true ⟨7, 0, 0, [], 7, true, 0, [⟨7, 0, 0⟩]⟩ (by decide)

lemma pushSample_length_le (samples : List ℚ) (s : ℚ) (h : samples.length ≤ 20) :
    (pushSample samples s).length ≤ 20 := by
  simp only [pushSample, max_samples]
  split
  · simp
    omega
  · simp at *
    omega

/-- Folding samples into the window keeps exactly the most recent 20:
the window is the suffix of the sample sequence past the eviction
point. -/
lemma foldl_pushSample_drop (ss : List ℚ) :
    ∀ acc : List ℚ, acc.length ≤ 20 →
      List.foldl pushSample acc ss = (acc ++ ss).drop (acc.length + ss.length - 20) := by
  induction ss with
  | nil =>
    intro acc h
    simp [Nat.sub_eq_zero_of_le h]
  | cons s ss ih =>
    intro acc h
    rw [List.foldl_cons, ih (pushSample acc s) (pushSample_length_le acc s h)]
    by_cases hfull : acc.length = 20
    · have hacc : acc ≠ [] := by
        intro he
        rw [he] at hfull
        simp at hfull
      have hps : pushSample acc s = acc.tail ++ [s] := by
        unfold pushSample max_samples
        rw [if_pos (by simp; omega), List.tail_append_of_ne_nil hacc]
      rw [hps]
      have hlen : (acc.tail ++ [s]).length = 20 := by
        simp
        omega
      rw [hlen, List.append_assoc, List.singleton_append]
      have htail : acc.tail ++ s :: ss = (acc ++ s :: ss).drop 1 := by
        rw [List.drop_append_of_le_length (by omega), List.drop_one]
      rw [htail, List.drop_drop]
      have : 1 + (20 + ss.length - 20) = acc.length + (s :: ss).length - 20 := by
        simp
        omega
      rw [this]
    · have hps : pushSample acc s = acc ++ [s] := by
        unfold pushSample max_samples
        rw [if_neg (by simp; omega)]
      rw [hps, List.append_assoc, List.singleton_append]
      have : (acc ++ [s]).length + ss.length - 20 = acc.length + (s :: ss).length - 20 := by
        simp
        omega
      rw [this]

/-- C6: the sample window is a bounded FIFO — it never holds more than
20 samples, a push into a full window evicts exactly the oldest sample,
and past 20 samples the reported smoothed speed is the arithmetic mean
of exactly the 20 most recent instantaneous samples (the empty-window
fallback is irrelevant). -/
theorem C6_rate_window (ss : List ℚ) :
    (List.foldl pushSample [] ss).length ≤ 20 ∧
    (∀ (w : List ℚ) (s : ℚ), w.length = 20 → pushSample w s = w.tail ++ [s]) ∧
    (20 < ss.length →
      List.foldl pushSample [] ss = ss.drop (ss.length - 20) ∧
      ∀ x : ℚ, avgSpeed (List.foldl pushSample [] ss) x =
        (ss.drop (ss.length - 20)).sum / 20) := by
  have hmain := foldl_pushSample_drop ss [] (by simp)
  simp only [List.nil_append, List.length_nil, Nat.zero_add] at hmain
  refine ⟨?_, ?_, ?_⟩
  · rw [hmain, List.length_drop]
    omega
  · intro w s hw
    have hwne : w ≠ [] := by
      intro he
      rw [he] at hw
      simp at hw
    unfold pushSample max_samples
    rw [if_pos (by simp; omega), List.tail_append_of_ne_nil hwne]
  · intro hlong
    refine ⟨hmain, ?_⟩
    intro x
    have hlen : (ss.drop (ss.length - 20)).length = 20 := by
      rw [List.length_drop]
      omega
    rw [hmain]
    unfold avgSpeed
    rw [if_neg (by rw [List.isEmpty_iff]; intro he; rw [he] at hlen; simp at hlen), hlen]
    norm_num

/-- Witness for C6 on 21 concrete samples: the window holds the last 20
and the mean is over exactly those. -/
theorem C6_rate_window_witness :
    List.foldl pushSample []
        [1, 2, 3, 4, 5, 6, 7, 8, 9, 10, 11, 12, 13, 14, 15, 16, 17, 18, 19, 20, (21 : ℚ)] =
      List.drop
        (List.length
          [1, 2, 3, 4, 5, 6, 7, 8, 9, 10, 11, 12, 13, 14, 15, 16, 17, 18, 19, 20, (21 : ℚ)] - 20)
        [1, 2, 3, 4, 5, 6, 7, 8, 9, 10, 11, 12, 13, 14, 15, 16, 17, 18, 19, 20, (21 : ℚ)] ∧
    ∀ x : ℚ, avgSpeed (List.foldl pushSample []
        [1, 2, 3, 4, 5, 6, 7, 8, 9, 10, 11, 12, 13, 14, 15, 16, 17, 18, 19, 20, (21 : ℚ)]) x =
      (List.drop
        (List.length
          [1, 2, 3, 4, 5, 6, 7, 8, 9, 10, 11, 12, 13, 14, 15, 16, 17, 18, 19, 20, (21 : ℚ)] - 20)
        [1, 2, 3, 4, 5, 6, 7, 8, 9, 10, 11, 12, 13, 14, 15, 16, 17, 18, 19, 20, (21 : ℚ)]).sum /
        20 :=
  (C6_rate_window
    [1, 2, 3, 4, 5, 6, 7, 8, 9, 10, 11, 12, 13, 14, 15, 16, 17, 18, 19, 20, (21 : ℚ)]).2.2
    (by decide)

/-! ## Preservation of the progress invariant -/

lemma chunkBytes_cons (c : ChunkEv) (cs : List ChunkEv) :
    chunkBytes (c :: cs) = chunkLen c + chunkBytes cs := by
  simp [chunkBytes]

lemma StInv_init (headLen : Option Nat) : StInv (initState headLen) := by
  unfold StInv initState
  refine ⟨by simp, by simp, le_refl 0, by simp, fun _ => Nat.zero_le _⟩

lemma StInv_cancelCleanup (st : LoopState) (rOk : Bool) (h : StInv st) :
    StInv (cancelCleanup st rOk) := by
  unfold StInv cancelCleanup at *
  simpa using h

/-- Appending a snapshot of the current counters keeps the report list
chained, bounded by its totals, and capped by the current counter. -/
lemma StInv_report_append (st : LoopState) (v : ℚ) (h : StInv st) :
    List.Chain' (fun a b => a.downloaded ≤ b.downloaded)
      (st.reports ++ [(⟨st.downloaded, st.total_size, v⟩ : DownloadState)]) ∧
    (∀ r ∈ st.reports ++ [(⟨st.downloaded, st.total_size, v⟩ : DownloadState)],
      0 < r.total → r.downloaded ≤ r.total) ∧
    (∀ r : DownloadState,
      (st.reports ++ [(⟨st.downloaded, st.total_size, v⟩ : DownloadState)]).getLast? = some r →
      r.downloaded ≤ st.downloaded) := by
  obtain ⟨h1, h2, h3, h4, h5⟩ := h
  refine ⟨?_, ?_, ?_⟩
  · rw [List.chain'_append]
    refine ⟨h1, List.chain'_singleton _, ?_⟩
    intro x hx y hy
    simp only [List.head?_cons, Option.mem_def, Option.some.injEq] at hy
    rw [← hy]
    exact h4 x (Option.mem_def.mp hx)
  · intro r hr
    rcases List.mem_append.mp hr with hold | hnew
    · exact h2 r hold
    · rw [List.mem_singleton] at hnew
      rw [hnew]
      exact fun ht => h5 ht
  · intro r hr
    rw [List.getLast?_concat] at hr
    injection hr with hr
    rw [← hr]

lemma StInv_tickUpdate (st : LoopState) (e : ℚ) (h : StInv st) : StInv (tickUpdate st e) := by
  have h5 := h.2.2.2.2
  have ha := StInv_report_append st
    (avgSpeed (pushSample st.speed_samples (((st.downloaded - st.last_downloaded : Nat) : ℚ) / e))
      (((st.downloaded - st.last_downloaded : Nat) : ℚ) / e)) h
  unfold StInv tickUpdate
  dsimp only
  exact ⟨ha.1, ha.2.1, le_refl _, fun r hr => ha.2.2 r hr, h5⟩

lemma StInv_writeChunk (st : LoopState) (d : ChunkData) (h : StInv st)
    (hfit : 0 < st.total_size → st.downloaded + d.len ≤ st.total_size) :
    StInv (writeChunk st d) := by
  obtain ⟨h1, h2, h3, h4, h5⟩ := h
  have hmid : StInv
      { st with
          fileLen := st.fileLen + d.len
          downloaded := st.downloaded + d.len } := by
    refine ⟨h1, h2, by dsimp only; omega, ?_, ?_⟩
    · intro r hr
      have := h4 r hr
      dsimp only
      omega
    · intro hpos
      exact hfit hpos
  unfold writeChunk
  cases htick : d.tick with
  | none => exact hmid
  | some e => exact StInv_tickUpdate _ e hmid

lemma StInv_updTotal (st : LoopState) (r : Response) (h : StInv st) : StInv (updTotal st r) := by
  obtain ⟨h1, h2, h3, h4, h5⟩ := h
  unfold updTotal
  split
  · rcases hcl : r.contentLength with _ | len
    · exact ⟨h1, h2, h3, h4, h5⟩
    · exact ⟨h1, h2, h3, h4, fun _ => Nat.le_add_right _ _⟩
  · exact ⟨h1, h2, h3, h4, h5⟩

lemma StInv_processChunks (rOk : Bool) :
    ∀ (cs : List ChunkEv) (st : LoopState), StInv st →
      (0 < st.total_size → st.downloaded + chunkBytes cs ≤ st.total_size) →
      (∀ st', processChunks rOk st cs = .cancelled st' → StInv st') ∧
      (∀ st', processChunks rOk st cs = .ioError st' → StInv st') ∧
      (∀ (err : Bool) (st' : LoopState), processChunks rOk st cs = .ended err st' → StInv st') := by
  intro cs
  induction cs with
  | nil =>
    intro st hinv _
    refine ⟨?_, ?_, ?_⟩
    · intro st' h
      exact absurd h (by simp [processChunks])
    · intro st' h
      exact absurd h (by simp [processChunks])
    · intro err st' h
      have hnil : processChunks rOk st [] = .ended false st := rfl
      rw [hnil] at h
      injection h with h1 h2
      rw [← h2]
      exact hinv
  | cons c cs ih =>
    intro st hinv hfit
    by_cases hcc : c.cancel = true
    · rw [processChunks_cons_cancel rOk st c cs hcc]
      refine ⟨?_, ?_, ?_⟩
      · intro st' h
        injection h with h
        rw [← h]
        exact StInv_cancelCleanup st rOk hinv
      · intro st' h
        exact absurd h (by simp)
      · intro err st' h
        exact absurd h (by simp)
    rw [Bool.not_eq_true] at hcc
    by_cases hcp : c.pause = true
    · rw [processChunks_cons_pause rOk st c cs hcc hcp]
      refine ⟨?_, ?_, ?_⟩
      · intro st' h
        exact absurd h (by simp)
      · intro st' h
        exact absurd h (by simp)
      · intro err st' h
        injection h with h1 h2
        rw [← h2]
        exact hinv
    rw [Bool.not_eq_true] at hcp
    rcases hres : c.result with e | d
    · rw [processChunks_cons_readError rOk st c cs hcc hcp (by rw [hres])]
      refine ⟨?_, ?_, ?_⟩
      · intro st' h
        exact absurd h (by simp)
      · intro st' h
        exact absurd h (by simp)
      · intro err st' h
        injection h with h1 h2
        rw [← h2]
        exact hinv
    · by_cases hw : d.writeOk = true
      · have hstep : processChunks rOk st (c :: cs) = processChunks rOk (writeChunk st d) cs := by
          simp [processChunks, hcc, hcp, hres, hw]
        rw [hstep]
        have hlen : chunkLen c = d.len := by
          unfold chunkLen
          rw [hres]
        apply ih (writeChunk st d)
        · apply StInv_writeChunk st d hinv
          intro hpos
          have := hfit hpos
          rw [chunkBytes_cons, hlen] at this
          omega
        · intro hpos
          rw [writeChunk_total] at hpos
          have := hfit hpos
          rw [chunkBytes_cons, hlen] at this
          rw [writeChunk_downloaded, writeChunk_total]
          omega
      · rw [Bool.not_eq_true] at hw
        rw [processChunks_cons_writeFail rOk st c cs d hcc hcp hres hw]
        refine ⟨?_, ?_, ?_⟩
        · intro st' h
          exact absurd h (by simp)
        · intro st' h
          injection h with h
          rw [← h]
          exact hinv
        · intro err st' h
          exact absurd h (by simp)

lemma honestIter_ok (st : LoopState) (r : Response) (ev : IterEv) (hr : ev.resp = .ok r)
    (hh : honestIter st ev = true) :
    0 < (updTotal st r).total_size →
    (updTotal st r).downloaded + chunkBytes r.chunks ≤ (updTotal st r).total_size := by
  unfold honestIter at hh
  rw [hr] at hh
  dsimp only at hh
  simp only [Bool.or_eq_true, decide_eq_true_eq] at hh
  intro hpos
  rcases hh with h0 | hle
  · omega
  · exact hle

lemma StInv_iterOnce (st : LoopState) (ev : IterEv) (h : StInv st)
    (hh : honestIter st ev = true) : StInv (iterResState (iterOnce st ev)) := by
  by_cases hc : ev.cancelTop = true
  · rw [iterOnce_cancelTop st ev hc]
    exact StInv_cancelCleanup st ev.removeOk h
  rw [Bool.not_eq_true] at hc
  by_cases hp : ev.pauseTop = true
  · rw [iterOnce_pauseTop st ev hc hp]
    exact h
  rw [Bool.not_eq_true] at hp
  by_cases hd : 0 < st.total_size ∧ st.total_size ≤ st.downloaded
  · rw [iterOnce_doneTop st ev hc hp hd]
    exact h
  rcases hr : ev.resp with e | r
  · rw [iterOnce_connectFail st ev hc hp hd (by rw [hr])]
    exact h
  have hu := StInv_updTotal st r h
  by_cases hs : isSuccess r.status = true
  · rw [iterOnce_streaming st ev r hc hp hd hr hs]
    have hfit := honestIter_ok st r ev hr hh
    have hpc := StInv_processChunks ev.removeOk r.chunks (updTotal st r) hu hfit
    rcases hres : processChunks ev.removeOk (updTotal st r) r.chunks with st1 | st1 | ⟨err, st1⟩
    · exact hpc.1 st1 hres
    · exact hpc.2.1 st1 hres
    · have hst1 := hpc.2.2 err st1 hres
      dsimp only
      split
      · split
        · split
          · exact hst1
          · exact hst1
        · exact hst1
      · exact hst1
  · rw [Bool.not_eq_true] at hs
    by_cases h416 : r.status = rangeNotSatisfiable ∧ 0 < (updTotal st r).total_size ∧
        (updTotal st r).total_size ≤ (updTotal st r).downloaded
    · rw [iterOnce_416done st ev r hc hp hd hr hs h416]
      exact hu
    · rw [iterOnce_badStatus st ev r hc hp hd hr hs h416]
      exact hu

lemma StInv_runLoop (evs : List IterEv) :
    ∀ (st : LoopState) (t : LoopTerm), StInv st → honest st evs = true →
      runLoop st evs = some t → StInv (termState t) := by
  induction evs with
  | nil =>
    intro st t _ _ h
    simp [runLoop] at h
  | cons ev evs ih =>
    intro st t hinv hh hrun
    unfold honest at hh
    simp only [Bool.and_eq_true] at hh
    obtain ⟨hh1, hh2⟩ := hh
    have hione := StInv_iterOnce st ev hinv hh1
    rcases hit : iterOnce st ev with st' | st' | st' | ⟨k, st'⟩ <;> rw [hit] at hione
    · rw [runLoop_cons_done st st' ev evs hit] at hrun
      injection hrun with hrun
      rw [← hrun]
      exact hione
    · rw [runLoop_cons_cancelled st st' ev evs hit] at hrun
      injection hrun with hrun
      rw [← hrun]
      exact hione
    · rw [runLoop_cons_ioError st st' ev evs hit] at hrun
      injection hrun with hrun
      rw [← hrun]
      exact hione
    · rw [runLoop_cons_again st st' ev evs k hit] at hrun
      rw [hit] at hh2
      dsimp only at hh2
      exact ih st' t hione hh2 hrun

/-- C5: on an honest trace (the server never over-delivers past the
announced total), the snapshot stream delivered to the sink within one
invocation has non-decreasing `downloaded`, and every snapshot with a
known total satisfies `downloaded ≤ total` — including the final one. -/
theorem C5_progress_monotone (headLen : Option Nat) (evs : List IterEv) (flushOk : Bool)
    (res : Except DlErr Unit) (st : LoopState)
    (hh : honest (initState headLen) evs = true)
    (h : download_file headLen evs flushOk = some (res, st)) :
    List.Chain' (fun a b => a.downloaded ≤ b.downloaded) st.reports ∧
    ∀ r ∈ st.reports, 0 < r.total → r.downloaded ≤ r.total := by
  unfold download_file at h
  rcases hrl : runLoop (initState headLen) evs with _ | t
  · rw [hrl] at h
    exact absurd h (by simp)
  have hts : StInv (termState t) :=
    StInv_runLoop evs (initState headLen) t (StInv_init headLen) hh hrl
  rcases t with st₀ | st₀ | st₀ <;> rw [hrl] at h <;> dsimp only at h <;>
    dsimp only [termState] at hts
  · by_cases hf : flushOk = true
    · rw [if_pos hf] at h
      injection h with h
      rw [Prod.mk.injEq] at h
      rw [← h.2]
      have hrep := StInv_report_append st₀ 0 hts
      exact ⟨hrep.1, hrep.2.1⟩
    · rw [if_neg hf] at h
      injection h with h
      rw [Prod.mk.injEq] at h
      rw [← h.2]
      exact ⟨hts.1, hts.2.1⟩
  · injection h with h
    rw [Prod.mk.injEq] at h
    rw [← h.2]
    exact ⟨hts.1, hts.2.1⟩
  · injection h with h
    rw [Prod.mk.injEq] at h
    rw [← h.2]
    exact ⟨hts.1, hts.2.1⟩

/-- Witness for C5 on a concrete honest two-response trace with a
progress tick. -/
theorem C5_progress_monotone_witness :
    List.Chain' (fun a b => a.downloaded ≤ b.downloaded)
      (⟨10, 10, 0, [], 10, true, 0, [⟨10, 10, 0⟩]⟩ : LoopState).reports ∧
    ∀ r ∈ (⟨10, 10, 0, [], 10, true, 0, [⟨10, 10, 0⟩]⟩ : LoopState).reports,
      0 < r.total → r.downloaded ≤ r.total :=
  C5_progress_monotone (some 10)
    [⟨false, false,
      .ok ⟨some 10, 200,
        [⟨false, false, .ok ⟨4, true, none⟩⟩, ⟨false, false, .ok ⟨6, true, none⟩⟩]⟩,
      false, true⟩]
    true (.ok ())
    ⟨10, 10, 0, [], 10, true, 0, [⟨10, 10, 0⟩]⟩
    (by decide) (by decide)

end Download
